import Mathlib

/-!
Verification of the markdown-to-confluence rendering pipeline
(`convert.py`): front-matter splitting, the Confluence node renderer
(headers, code blocks, images), the attachment accumulator, and the
page layout composer.

The Python source is shallowly embedded: the splitter loop becomes a
fold over the document's lines, the mutable renderer instance becomes
an explicit `ConfluenceRenderer` state threaded through rendering, and
Python exceptions become `Except`.  External collaborators (the
`mistune` tokenizer and `yaml.load`) are parameters: the tokenizer is
modelled as a list of construct callbacks in document order, and the
YAML loader as a function whose errors propagate exactly as the
(absent) exception handling in the source dictates.  Python string
literals produced through `textwrap.dedent` are embedded already
dedented.
-/

namespace MdToConf

/-! ## Generic string helpers -/

/-- Concatenation of a list of strings (used to describe what the
splitter accumulates line by line). -/
def joinAll : List String → String
  | [] => ""
  | s :: rest => s ++ joinAll rest

/-- Python `sep.join(xs)`: interleave a separator between the
elements of a list of strings. -/
def joinSep (sep : String) : List String → String
  | [] => ""
  | [x] => x
  | x :: rest => x ++ sep ++ joinSep sep rest

/-- Python `str.strip()` with no argument: remove leading and
trailing whitespace (modelled over the ASCII whitespace characters of
`Char.isWhitespace`). -/
def pyStrip (s : String) : String :=
  String.mk (((s.data.dropWhile Char.isWhitespace).reverse.dropWhile Char.isWhitespace).reverse)

/-- Worker for `pySplitChar`: split the remaining characters at every
occurrence of `sep`, with `acc` holding the current piece reversed. -/
def splitCharAux (sep : Char) : List Char → List Char → List String
  | [], acc => [String.mk acc.reverse]
  | c :: rest, acc =>
    if c == sep then String.mk acc.reverse :: splitCharAux sep rest []
    else splitCharAux sep rest (c :: acc)

/-- Python `s.split(sep)` for a one-character separator: split at
every occurrence, keeping empty pieces (`"x".split('x') == ['', '']`,
`"".split('x') == ['']`). -/
def pySplitChar (sep : Char) (s : String) : List String :=
  splitCharAux sep s.data []

/-- Substring test on character lists: `hasSub pat l` is true iff
`pat` occurs contiguously inside `l`. -/
def hasSub (pat : List Char) : List Char → Bool
  | [] => pat.isEmpty
  | c :: rest => pat.isPrefixOf (c :: rest) || hasSub pat rest

/-- Substring test on strings. -/
def strHasSub (pat s : String) : Bool :=
  hasSub pat.data s.data

/-- Index of the first occurrence of `pat` inside `l`, if any. -/
def findSub (pat : List Char) : List Char → Option Nat
  | [] => if pat.isEmpty then some 0 else none
  | c :: rest =>
    if pat.isPrefixOf (c :: rest) then some 0
    else (findSub pat rest).map (· + 1)

/-- Digit run accepted by Python `int()` after the optional sign:
digits with single underscores strictly between digits. -/
def pyIntDigits : List Char → Bool
  | [] => true
  | ['_'] => false
  | '_' :: c :: cs => c.isDigit && pyIntDigits (c :: cs)
  | c :: cs => c.isDigit && pyIntDigits cs

/-- Truth value of whether Python `int(s)` succeeds (ASCII model): optional
surrounding whitespace, optional sign, then a digit run possibly with
single underscores between digits. -/
def pyIntOk (s : String) : Bool :=
  let t := (pyStrip s).data
  let t := match t with
    | '+' :: rest => rest
    | '-' :: rest => rest
    | other => other
  match t with
  | [] => false
  | c :: _ => c.isDigit && pyIntDigits t

/-- Characters allowed in a URL scheme by `urllib.parse`
(letters, digits, `+`, `-`, `.`). -/
def schemeChar (c : Char) : Bool :=
  c.isAlpha || c.isDigit || c == '+' || c == '-' || c == '.'

/-- Strip a leading `scheme:` from a URL exactly as `urlsplit` does:
the text before the first `:` must start with a letter and consist of
scheme characters; otherwise nothing is stripped. -/
def dropScheme (cs : List Char) : List Char :=
  match cs.findIdx? (fun c => c == ':') with
  | some i =>
    if 0 < i ∧ (cs.take i).all schemeChar ∧ (cs.headD ' ').isAlpha then
      cs.drop (i + 1)
    else cs
  | none => cs

/-- Model of `urlparse(src).netloc`: after stripping an optional scheme, a
network location is present iff the remainder starts with `//`; it
extends to the first `/`, `?` or `#`. -/
def netloc (src : String) : String :=
  let rest := dropScheme src.data
  if rest.take 2 = ['/', '/'] then
    String.mk ((rest.drop 2).takeWhile (fun c => !(c == '/' || c == '?' || c == '#')))
  else ""

/-- Model of `os.path.basename` (POSIX): the final path segment after the last
`/` (empty when the path ends in `/`). -/
def basename (p : String) : String :=
  (pySplitChar '/' p).getLastD ""

/-! ## Front-matter splitter (`parse`, convert.py lines 11-33)

`parse` reads the post line by line (`post.readlines()` keeps the
trailing newline on every line), accumulating into `raw_yaml` while
`in_yaml` holds and into `markdown` afterwards.  A line that strips to
`---` flips `in_yaml` (and is consumed) only when `in_yaml` is still
true and `raw_yaml` is non-empty.  We model the loop as a fold over
the list of lines. -/

/-- The delimiter constant `YAML_BOUNDARY = '---'` (convert.py line 8). -/
def YAML_BOUNDARY : String := "---"

/-- The loop state of `parse`: the flag and the two accumulators. -/
structure SplitState where
  in_yaml : Bool
  raw_yaml : String
  markdown : String
deriving Repr, DecidableEq

/-- One iteration of the `for line in post.readlines()` loop
(convert.py lines 21-30). -/
def parseLine (st : SplitState) (line : String) : SplitState :=
  if pyStrip line = YAML_BOUNDARY ∧ st.in_yaml = true ∧ st.raw_yaml ≠ "" then
    { st with in_yaml := false }        -- ending tag found: consume the line
  else if st.in_yaml then
    { st with raw_yaml := st.raw_yaml ++ line }
  else
    { st with markdown := st.markdown ++ line }

/-- The whole loop of `parse` over the document's lines. -/
def splitFrontMatter (lines : List String) : SplitState :=
  lines.foldl parseLine { in_yaml := true, raw_yaml := "", markdown := "" }

/-- The front-matter splitter's observable result: the raw metadata
buffer and the body trimmed by `markdown.strip()` (convert.py line 32). -/
def parseSplit (lines : List String) : String × String :=
  let st := splitFrontMatter lines
  (st.raw_yaml, pyStrip st.markdown)

/-! ## Front matter and `convtoconf` (convert.py lines 36-46) -/

/-- The recognized front-matter keys.  `yaml.load` returning a mapping
is modelled by this structure; a key that is absent from the mapping is
`none`, matching `front_matter.get(key, default)`. -/
structure FrontMatter where
  author_keys : Option (List String) := none
  sidebar : Option Bool := none
deriving Repr, DecidableEq

/-! ## The Confluence renderer (convert.py lines 49-179) -/

/-- The mutable state of a `ConfluenceRenderer` instance
(convert.py lines 50-57). -/
structure ConfluenceRenderer where
  attachments : List String
  authors : List String
  has_toc : Bool
  sidebar : Bool
deriving Repr, DecidableEq

/-- Constructor `ConfluenceRenderer(authors=..., sidebar=...)`: fresh state with an
empty attachment list and `has_toc = False`. -/
def mkRenderer (authors : List String) (sidebar : Bool) : ConfluenceRenderer :=
  { attachments := [], authors := authors, has_toc := false, sidebar := sidebar }

/-- Method `header` (convert.py lines 100-107): records that a TOC is needed
and otherwise delegates to mistune's default heading rendering
(`'<h%d>%s</h%d>\n'`). -/
def header (r : ConfluenceRenderer) (text : String) (level : Nat) :
    ConfluenceRenderer × String :=
  ({ r with has_toc := true },
    "<h" ++ toString level ++ ">" ++ text ++ "</h" ++ toString level ++ ">\n")

/-- The text of the `block_code` template before the interpolated code
(convert.py lines 131-134, after `textwrap.dedent`), with the
`language` parameter filled in by `lang or ''`. -/
def codeMacroPre (lang : Option String) : String :=
  "<ac:structured-macro ac:name=\"code\" ac:schema-version=\"1\">\n    <ac:parameter ac:name=\"language\">"
    ++ lang.getD ""
    ++ "</ac:parameter>\n    <ac:plain-text-body><![CDATA["

/-- The text of the `block_code` template after the interpolated code
(convert.py lines 134-136, after `textwrap.dedent`). -/
def codeMacroSuf : String :=
  "]]></ac:plain-text-body>\n</ac:structured-macro>\n"

/-- Method `block_code` (convert.py lines 130-136): the dedented template with
`{c}` and `{l}` substituted by `str.format`; the code text is inserted
verbatim. -/
def block_code (code : String) (lang : Option String) : String :=
  codeMacroPre lang ++ code ++ codeMacroSuf

/-- The inner helper `extract_height_width` of `image` (convert.py
lines 152-164).  `alt_text.split('|')[-1]` is the trailing segment;
`height, width = parts.split('x')` is a two-tuple unpacking that
raises `ValueError` when the split yields three or more pieces — the
split sits before the `try`, so that error escapes.  Inside the `try`,
`int()` failures on a non-empty component are caught and discard both
components. -/
def extract_height_width (alt_text : String) :
    Except String (Option String × Option String) :=
  let parts := (pySplitChar '|' alt_text).getLastD ""   -- split('|') is never empty
  if parts.data.contains 'x' then
    match pySplitChar 'x' parts with
    | [height, width] =>
      if (height = "" ∨ pyIntOk height = true) ∧ (width = "" ∨ pyIntOk width = true) then
        Except.ok (some height, some width)
      else
        Except.ok (none, none)                      -- except: return None, None
    | _ => Except.error "ValueError: too many values to unpack"
  else
    if parts = "" ∨ pyIntOk parts = true then
      Except.ok (some parts, none)                  -- width = None
    else
      Except.ok (none, none)

/-- Method `image` (convert.py lines 138-179): classify `src` by
`urlparse(src).netloc`, extract optional size hints from the alt text,
emit a URL reference for external images or an attachment reference
(by basename) for local ones, appending local `src` values to
`attachments`. -/
def image (r : ConfluenceRenderer) (src : String) (title : String)
    (alt_text : String) : Except String (ConfluenceRenderer × String) :=
  match extract_height_width alt_text with
  | Except.error e => Except.error e
  | Except.ok (height, width) =>
    let t0 := "<ac:image"
    let t1 := if height.getD "" ≠ "" then
        t0 ++ " ac:height=\"" ++ height.getD "" ++ "\"" else t0
    let t2 := if width.getD "" ≠ "" then
        t1 ++ " ac:width=\"" ++ width.getD "" ++ "\"" else t1
    if netloc src ≠ "" then           -- is_external
      Except.ok (r, t2 ++ ">" ++ ("<ri:url ri:value=\"" ++ src ++ "\" />") ++ "</ac:image>")
    else
      Except.ok ({ r with attachments := r.attachments ++ [src] },
        t2 ++ ">" ++ ("<ri:attachment ri:filename=\"" ++ basename src ++ "\" />") ++ "</ac:image>")

/-- One Markdown construct as dispatched by the black-box `mistune`
tokenizer: the three callbacks the renderer overrides, plus a default
construct whose rendered HTML the renderer passes through unchanged. -/
inductive Construct where
  | header (text : String) (level : Nat)
  | block_code (code : String) (lang : Option String)
  | image (src : String) (title : String) (alt_text : String)
  | other (html : String)
deriving Repr, DecidableEq

/-- Truth value marking header constructs. -/
def isHeaderB : Construct → Bool
  | Construct.header _ _ => true
  | _ => false

/-- Dispatch of one tokenizer callback to the renderer. -/
def renderConstruct (r : ConfluenceRenderer) :
    Construct → Except String (ConfluenceRenderer × String)
  | Construct.header text level => Except.ok (header r text level)
  | Construct.block_code code lang => Except.ok (r, block_code code lang)
  | Construct.image src title alt_text => image r src title alt_text
  | Construct.other html => Except.ok (r, html)

/-- Model of `mistune.markdown(markdown, renderer=renderer)`: the tokenizer
invokes the callbacks in document order and the rendered fragments are
concatenated; a Python exception raised by a callback propagates. -/
def renderDoc (r : ConfluenceRenderer) :
    List Construct → Except String (ConfluenceRenderer × String)
  | [] => Except.ok (r, "")
  | c :: rest =>
    match renderConstruct r c with
    | Except.error e => Except.error e
    | Except.ok (r1, frag) =>
      match renderDoc r1 rest with
      | Except.error e => Except.error e
      | Except.ok (r2, rest_html) => Except.ok (r2, frag ++ rest_html)

/-- The TOC fragment of `layout` (convert.py lines 77-82, after
`textwrap.dedent`). -/
def tocFragment : String :=
  "\n<h1>Table of Contents</h1>\n<p><ac:structured-macro ac:name=\"toc\" ac:schema-version=\"1\">\n    <ac:parameter ac:name=\"exclude\">^(Authors|Table of Contents)$</ac:parameter>\n    <!-- <ac:parameter ac:name=\"outline\">true</ac:parameter> -->\n</ac:structured-macro></p>"

/-- Opening text of the dedented `column` template, up to the width
interpolation point (convert.py lines 88-92). -/
def colOpen : String :=
  "\n<ac:structured-macro ac:name=\"column\" ac:schema-version=\"1\">\n    <ac:parameter ac:name=\"width\">"

/-- Middle text of the `column` template, between the width and the
content interpolation points. -/
def colMid : String :=
  "</ac:parameter>\n    <ac:rich-text-body>"

/-- Closing text of the `column` template, after the content. -/
def colClose : String :=
  "</ac:rich-text-body>\n</ac:structured-macro>"

/-- The instantiated `column.format(width=..., content=...)` template (convert.py lines 88-95). -/
def columnWrap (width content : String) : String :=
  colOpen ++ width ++ colMid ++ content ++ colClose

/-- The per-author template of `render_authors` (convert.py lines
121-124; a plain, non-dedented triple-quoted literal, whitespace kept
verbatim) with `{user_key}` substituted at both occurrences. -/
def authorEntry (user_key : String) : String :=
  "<ac:structured-macro ac:name=\"profile-picture\" ac:schema-version=\"1\">\n                <ac:parameter ac:name=\"User\"><ri:user ri:userkey=\""
    ++ user_key
    ++ "\" /></ac:parameter>\n            </ac:structured-macro>&nbsp;\n            <ac:link><ri:user ri:userkey=\""
    ++ user_key
    ++ "\" /></ac:link>"

/-- Method `render_authors` (convert.py lines 109-128): the `Authors` heading
followed by the `<br />`-joined author entries inside one paragraph. -/
def render_authors (r : ConfluenceRenderer) : String :=
  "<h1>Authors</h1><p>" ++ joinSep "<br />" (r.authors.map authorEntry) ++ "</p>"

/-- Method `layout` (convert.py lines 59-98): drop the TOC when no header was
processed, then either wrap into a 30%/800px column pair (sidebar
first) or concatenate TOC, content and authors. -/
def layout (r : ConfluenceRenderer) (content : String) : String :=
  let toc := if r.has_toc then tocFragment else ""
  let authors := render_authors r
  if r.sidebar then
    columnWrap "30%" (toc ++ authors) ++ columnWrap "800px" content
  else
    toc ++ content ++ authors

/-- Function `convtoconf` (convert.py lines 36-46), with the black-box
`mistune` tokenizer passed as `mdParse`.  `front_matter` is the result
of `yaml.load`: `None` degrades to the empty mapping, and absent keys
default to `[]` and `False`. -/
def convtoconf (mdParse : String → List Construct) (markdown : String)
    (front_matter : Option FrontMatter) : Except String (String × List String) :=
  let fm := front_matter.getD {}            -- if front_matter is None: front_matter = {}
  let author_keys := fm.author_keys.getD []
  let sidebar := fm.sidebar.getD false
  let r := mkRenderer author_keys sidebar
  match renderDoc r (mdParse markdown) with
  | Except.error e => Except.error e
  | Except.ok (r1, content_html) => Except.ok (layout r1 content_html, r1.attachments)

/-- Function `parse` followed by `convtoconf`: the whole conversion of one
document.  `yamlLoad` is the black-box `yaml.load`; `parse` wraps it in
no exception handling (convert.py line 31), so a loader error
propagates out of the conversion. -/
def fullConvert (yamlLoad : String → Except String (Option FrontMatter))
    (mdParse : String → List Construct) (lines : List String) :
    Except String (String × List String) :=
  let st := splitFrontMatter lines
  match yamlLoad st.raw_yaml with
  | Except.error e => Except.error e
  | Except.ok fm => convtoconf mdParse (pyStrip st.markdown) fm

/-- The text that identifies the table-of-contents structured macro in
the final markup. -/
def tocNeedle : String := "ac:name=\"toc\""

/-- The opening marker of the opaque-data wrapper. -/
def cdataOpen : String := "<![CDATA["

/-- The sequence that terminates the opaque-data wrapper. -/
def cdataClose : String := "]]>"

/-- Reads back the body of the first CDATA section of a string: the
text between the first `<![CDATA[` and the first `]]>` after it.  This
is how an XML consumer delimits the opaque character data of the code
macro. -/
def cdataBody (s : String) : Option String :=
  match findSub cdataOpen.data s.data with
  | none => none
  | some i =>
    let after := s.data.drop (i + cdataOpen.length)
    match findSub cdataClose.data after with
    | none => none
    | some j => some (String.mk (after.take j))

/-! ## String and list bridge lemmas -/

theorem str_nil_append (s : String) : "" ++ s = s := rfl

theorem str_append_nil (s : String) : s ++ "" = s := by
  apply String.ext
  simp [String.data_append]

theorem str_append_assoc (a b c : String) : (a ++ b) ++ c = a ++ (b ++ c) := by
  apply String.ext
  simp [String.data_append]

theorem str_ne_empty_of_data_ne_nil {s : String} (h : s.data ≠ []) : s ≠ "" := by
  intro hs
  exact h (by simp [hs])

theorem str_append_ne_empty_left {s : String} (t : String) (h : s ≠ "") :
    s ++ t ≠ "" := by
  apply str_ne_empty_of_data_ne_nil
  rw [String.data_append]
  intro hx
  rcases List.append_eq_nil.mp hx with ⟨h1, -⟩
  exact h (String.ext h1)

theorem joinAll_cons (s : String) (l : List String) :
    joinAll (s :: l) = s ++ joinAll l := rfl

theorem joinAll_append (a b : List String) :
    joinAll (a ++ b) = joinAll a ++ joinAll b := by
  induction a with
  | nil => simp [joinAll, str_nil_append]
  | cons x xs ih => simp [joinAll, ih, str_append_assoc]

theorem mem_of_getLast?_eq {α : Type} {l : List α} {c : α}
    (h : l.getLast? = some c) : c ∈ l := by
  induction l with
  | nil => simp at h
  | cons a rest ih =>
    cases rest with
    | nil =>
      simp at h
      simp [h]
    | cons b bs =>
      rw [List.getLast?_cons_cons] at h
      exact List.mem_cons_of_mem _ (ih h)

theorem head?_append_left {α : Type} (a b : List α) (h : a ≠ []) :
    (a ++ b).head? = a.head? := by
  cases a with
  | nil => exact absurd rfl h
  | cons c cs => rfl

/-! ## Substring toolkit -/

theorem hasSub_of_pre {pat l : List Char} (h : pat <+: l) :
    hasSub pat l = true := by
  cases l with
  | nil =>
    have : pat = [] := List.prefix_nil.mp h
    simp [hasSub, this]
  | cons c rest =>
    simp only [hasSub, Bool.or_eq_true]
    exact Or.inl ( List.isPrefixOf_iff_prefix.mpr h)

theorem hasSub_append_right (pat a b : List Char) (h : hasSub pat b = true) :
    hasSub pat (a ++ b) = true := by
  induction a with
  | nil => simpa using h
  | cons c cs ih =>
    simp only [List.cons_append, hasSub, Bool.or_eq_true]
    exact Or.inr ih

theorem hasSub_append_left (pat a b : List Char) (h : hasSub pat a = true) :
    hasSub pat (a ++ b) = true := by
  induction a with
  | nil =>
    cases pat with
    | cons x xs => simp [hasSub] at h
    | nil => simpa using hasSub_of_pre (show ([] : List Char) <+: b from List.nil_prefix)
  | cons c cs ih =>
    simp only [hasSub, Bool.or_eq_true] at h
    rcases h with h | h
    · simp only [List.cons_append, hasSub, Bool.or_eq_true]
      exact Or.inl ( List.isPrefixOf_iff_prefix.mpr
        (( List.isPrefixOf_iff_prefix.mp h).trans (List.prefix_append _ _)))
    · simp only [List.cons_append, hasSub, Bool.or_eq_true]
      exact Or.inr (ih h)

theorem hasSub_append_split {pat a b : List Char}
    (h : hasSub pat (a ++ b) = true) :
    hasSub pat a = true ∨ hasSub pat b = true ∨
      ∃ p1 p2, pat = p1 ++ p2 ∧ p1 ≠ [] ∧ p2 ≠ [] ∧ p1 <:+ a ∧ p2 <+: b := by
  induction a with
  | nil => exact Or.inr (Or.inl (by simpa using h))
  | cons c a' ih =>
    simp only [List.cons_append, hasSub, Bool.or_eq_true] at h
    rcases h with h | h
    · have hpre : pat <+: (c :: a') ++ b := by
        simpa using List.isPrefixOf_iff_prefix.mp h
      by_cases hlen : pat.length ≤ (c :: a').length
      · left
        exact hasSub_of_pre
          (List.prefix_of_prefix_length_le hpre (List.prefix_append _ _) hlen)
      · have hlen' : (c :: a').length ≤ pat.length := le_of_not_le hlen
        have hA : (c :: a') <+: pat :=
          List.prefix_of_prefix_length_le (List.prefix_append _ _) hpre hlen'
        rcases hA with ⟨p2, hp2⟩
        right; right
        refine ⟨c :: a', p2, hp2.symm, by simp, ?_, List.suffix_refl _, ?_⟩
        · intro hnil
          rw [hnil, List.append_nil] at hp2
          rw [hp2] at hlen
          exact hlen le_rfl
        · -- from (c :: a') ++ p2 = pat <+: (c :: a') ++ b deduce p2 <+: b
          rcases hpre with ⟨t, ht⟩
          rw [← hp2, List.append_assoc] at ht
          have := List.append_cancel_left ht
          exact ⟨t, this⟩
    · rcases ih h with h1 | h2 | ⟨p1, p2, hsplit, hp1, hp2, hsuf, hpre⟩
      · left
        simp only [hasSub, Bool.or_eq_true]
        exact Or.inr h1
      · exact Or.inr (Or.inl h2)
      · exact Or.inr (Or.inr ⟨p1, p2, hsplit, hp1, hp2, hsuf.trans (List.suffix_cons c a'), hpre⟩)

theorem hasSub_append_false {pat a b : List Char}
    (ha : hasSub pat a = false) (hb : hasSub pat b = false)
    (hstr : ∀ p1 p2, pat = p1 ++ p2 → p1 ≠ [] → p2 ≠ [] → p1 <:+ a → p2 <+: b → False) :
    hasSub pat (a ++ b) = false := by
  by_contra hx
  have hx' : hasSub pat (a ++ b) = true := by
    cases hcase : hasSub pat (a ++ b) with
    | false => exact absurd hcase hx
    | true => rfl
  rcases hasSub_append_split hx' with h1 | h2 | ⟨p1, p2, hsplit, hp1, hp2, hsuf, hpre⟩
  · rw [ha] at h1; cases h1
  · rw [hb] at h2; cases h2
  · exact hstr p1 p2 hsplit hp1 hp2 hsuf hpre

/-- Refute a straddling occurrence by the last character of the left
part: a non-empty prefix of `pat` that is a suffix of `a` would end in
`a`'s last character, which does not occur in `pat` at all. -/
theorem straddleL {pat p1 a : List Char} {ch : Char}
    (hpre : p1 <+: pat) (h1 : p1 ≠ []) (hsuf : p1 <:+ a)
    (ha : a.getLast? = some ch) (hch : ch ∉ pat) : False := by
  rcases hsuf with ⟨t, ht⟩
  have hlast : p1.getLast? = some ch := by
    rw [← ht] at ha
    rwa [List.getLast?_append_of_ne_nil t h1] at ha
  have hmem : ch ∈ p1 := mem_of_getLast?_eq hlast
  exact hch (hpre.subset hmem)

/-- Refute a straddling occurrence by the first character of the right
part: a non-empty proper suffix of `pat` that is a prefix of `b` would
start with `b`'s first character, which does not occur in `pat` after
position 0. -/
theorem straddleR {pat p1 p2 b : List Char} {ch : Char}
    (hsplit : pat = p1 ++ p2) (h1 : p1 ≠ []) (h2 : p2 ≠ [])
    (hpre : p2 <+: b) (hb : b.head? = some ch) (hch : ch ∉ pat.drop 1) : False := by
  rcases hpre with ⟨t, ht⟩
  have hhead : p2.head? = some ch := by
    rw [← ht] at hb
    rwa [head?_append_left p2 t h2] at hb
  have hmem : ch ∈ p2 := by
    cases p2 with
    | nil => exact absurd rfl h2
    | cons x xs =>
      simp only [List.head?_cons, Option.some.injEq] at hhead
      simp [hhead]
  have hdropped : pat.drop 1 = p1.drop 1 ++ p2 := by
    rw [hsplit]
    exact List.drop_append_of_le_length (by
      cases p1 with
      | nil => exact absurd rfl h1
      | cons x xs => simp)
  rw [hdropped] at hch
  exact hch (List.mem_append_right _ hmem)

/-- Refute a straddling occurrence against a concrete head region of
the right part: every proper suffix `pat.drop k` (`1 ≤ k`) fails to be
a prefix of `c0`, and `c0` is at least as long as `pat`. -/
theorem straddleRconc (pat p1 p2 c0 t : List Char)
    (hsplit : pat = p1 ++ p2) (h1 : p1 ≠ []) (h2 : p2 ≠ [])
    (hpre : p2 <+: c0 ++ t) (hlen : pat.length ≤ c0.length)
    (hdec : ∀ k, k < pat.length → 1 ≤ k → ¬ (pat.drop k <+: c0)) : False := by
  have hk1 : 1 ≤ p1.length := by
    cases p1 with
    | nil => exact absurd rfl h1
    | cons x xs => simp
  have hkp : p1.length < pat.length := by
    rw [hsplit, List.length_append]
    cases p2 with
    | nil => exact absurd rfl h2
    | cons y ys => simp
  have hp2eq : pat.drop p1.length = p2 := by
    rw [hsplit]
    exact List.drop_left p1 p2
  have hlen2 : p2.length ≤ c0.length := by
    have : p2.length ≤ pat.length := by
      rw [hsplit, List.length_append]; omega
    omega
  have hp2c0 : p2 <+: c0 :=
    List.prefix_of_prefix_length_le hpre (List.prefix_append c0 t) hlen2
  exact hdec p1.length hkp hk1 (by rwa [hp2eq])

theorem findSub_of_pre {pat l : List Char} (h : pat <+: l) :
    findSub pat l = some 0 := by
  cases l with
  | nil =>
    have : pat = [] := List.prefix_nil.mp h
    simp [findSub, this]
  | cons c rest =>
    simp [findSub, List.isPrefixOf_iff_prefix.mpr h]

theorem findSub_shift {pat : List Char} (a b : List Char)
    (ha : hasSub pat a = false)
    (hstr : ∀ p1 p2, pat = p1 ++ p2 → p1 ≠ [] → p2 ≠ [] → p1 <:+ a → p2 <+: b → False) :
    findSub pat (a ++ b) = (findSub pat b).map (· + a.length) := by
  induction a with
  | nil =>
    simp only [List.nil_append, List.length_nil]
    cases findSub pat b <;> simp
  | cons c a' ih =>
    have hnotpre : pat.isPrefixOf (c :: (a' ++ b)) = false := by
      by_contra hx
      have hx' : pat <+: (c :: a') ++ b := by
        have : pat.isPrefixOf (c :: (a' ++ b)) = true := by
          cases hcase : pat.isPrefixOf (c :: (a' ++ b)) with
          | false => exact absurd hcase hx
          | true => rfl
        simpa using List.isPrefixOf_iff_prefix.mp this
      by_cases hlen : pat.length ≤ (c :: a').length
      · have hin : pat <+: c :: a' :=
          List.prefix_of_prefix_length_le hx' (List.prefix_append _ _) hlen
        have : hasSub pat (c :: a') = true := hasSub_of_pre hin
        rw [ha] at this; cases this
      · have hlen' : (c :: a').length ≤ pat.length := le_of_not_le hlen
        have hA : (c :: a') <+: pat :=
          List.prefix_of_prefix_length_le (List.prefix_append _ _) hx' hlen'
        rcases hA with ⟨p2, hp2⟩
        have hp2ne : p2 ≠ [] := by
          intro hnil
          rw [hnil, List.append_nil] at hp2
          rw [hp2] at hlen
          exact hlen le_rfl
        have hp2pre : p2 <+: b := by
          rcases hx' with ⟨t, ht⟩
          rw [← hp2, List.append_assoc] at ht
          exact ⟨t, List.append_cancel_left ht⟩
        exact hstr (c :: a') p2 hp2.symm (by simp) hp2ne (List.suffix_refl _) hp2pre
    have ha' : hasSub pat a' = false := by
      simp only [hasSub, Bool.or_eq_false_iff] at ha
      exact ha.2
    have hstr' : ∀ p1 p2, pat = p1 ++ p2 → p1 ≠ [] → p2 ≠ [] → p1 <:+ a' → p2 <+: b → False :=
      fun p1 p2 hs h1 h2 hsuf hpre =>
        hstr p1 p2 hs h1 h2 (hsuf.trans (List.suffix_cons c a')) hpre
    have hrest := ih ha' hstr'
    have hstep : findSub pat (c :: (a' ++ b)) = (findSub pat (a' ++ b)).map (· + 1) := by
      show (if pat.isPrefixOf (c :: (a' ++ b)) = true then some 0
            else (findSub pat (a' ++ b)).map (· + 1)) = (findSub pat (a' ++ b)).map (· + 1)
      rw [hnotpre]
      simp
    rw [List.cons_append, hstep, hrest]
    cases findSub pat b with
    | none => rfl
    | some v =>
      show some (v + a'.length + 1) = some (v + (a'.length + 1))
      rw [Nat.add_assoc]

/-! ## Behaviour of the front-matter splitter -/

theorem parseLine_closed (r m line : String) :
    parseLine { in_yaml := false, raw_yaml := r, markdown := m } line
      = { in_yaml := false, raw_yaml := r, markdown := m ++ line } := by
  simp [parseLine]

theorem foldl_markdown (rest : List String) :
    ∀ r m : String, List.foldl parseLine { in_yaml := false, raw_yaml := r, markdown := m } rest
      = { in_yaml := false, raw_yaml := r, markdown := m ++ joinAll rest } := by
  induction rest with
  | nil =>
    intro r m
    simp [joinAll, str_append_nil]
  | cons line rs ih =>
    intro r m
    rw [List.foldl_cons, parseLine_closed, ih, joinAll_cons, str_append_assoc]

theorem parseLine_open_keep (r line : String) (hline : pyStrip line ≠ YAML_BOUNDARY) :
    parseLine { in_yaml := true, raw_yaml := r, markdown := "" } line
      = { in_yaml := true, raw_yaml := r ++ line, markdown := "" } := by
  simp [parseLine, hline]

theorem foldl_yaml_acc (mid : List String) :
    ∀ r : String, (∀ m ∈ mid, pyStrip m ≠ YAML_BOUNDARY) →
      List.foldl parseLine { in_yaml := true, raw_yaml := r, markdown := "" } mid
        = { in_yaml := true, raw_yaml := r ++ joinAll mid, markdown := "" } := by
  induction mid with
  | nil =>
    intro r _
    simp [joinAll, str_append_nil]
  | cons line rs ih =>
    intro r hmid
    rw [List.foldl_cons, parseLine_open_keep r line (hmid line (List.mem_cons_self line rs)),
      ih (r ++ line) (fun m hm => hmid m (List.mem_cons_of_mem line hm)),
      joinAll_cons, str_append_assoc]

theorem parseLine_close (r line : String) (hline : pyStrip line = YAML_BOUNDARY) (hr : r ≠ "") :
    parseLine { in_yaml := true, raw_yaml := r, markdown := "" } line
      = { in_yaml := false, raw_yaml := r, markdown := "" } := by
  simp [parseLine, hline, hr]

/-- Full characterization of the splitter loop started in the
metadata-accumulating state: either no line ever closes the block and
every line lands in the metadata buffer, or some line `j` — a `---`
line — is consumed, the lines before it are the metadata and the lines
after it are the body, verbatim. -/
theorem split_progress (lines : List String) :
    ∀ r : String,
      List.foldl parseLine { in_yaml := true, raw_yaml := r, markdown := "" } lines
          = { in_yaml := true, raw_yaml := r ++ joinAll lines, markdown := "" }
      ∨ ∃ j, ∃ hj : j < lines.length,
          pyStrip (lines.get ⟨j, hj⟩) = YAML_BOUNDARY ∧
          List.foldl parseLine { in_yaml := true, raw_yaml := r, markdown := "" } lines
            = { in_yaml := false, raw_yaml := r ++ joinAll (lines.take j),
                markdown := joinAll (lines.drop (j + 1)) } := by
  induction lines with
  | nil =>
    intro r
    exact Or.inl (by simp [joinAll, str_append_nil])
  | cons line rest ih =>
    intro r
    by_cases hline : pyStrip line = YAML_BOUNDARY
    · by_cases hr : r ≠ ""
      · -- the line closes the block here
        right
        refine ⟨0, by simp, by simpa using hline, ?_⟩
        rw [List.foldl_cons, parseLine_close r line hline hr, foldl_markdown]
        simp [joinAll, str_append_nil, str_nil_append]
      · -- raw_yaml still empty: the line is kept as metadata
        have hr' : r = "" := not_not.mp hr
        have hstep : parseLine { in_yaml := true, raw_yaml := r, markdown := "" } line
            = { in_yaml := true, raw_yaml := r ++ line, markdown := "" } := by
          simp [parseLine, hline, hr']
        rcases ih (r ++ line) with hopen | ⟨j, hj, htrim, hclose⟩
        · left
          rw [List.foldl_cons, hstep, hopen, joinAll_cons, str_append_assoc]
        · right
          refine ⟨j + 1, by simpa using hj, by simpa using htrim, ?_⟩
          rw [List.foldl_cons, hstep, hclose]
          simp [joinAll_cons, str_append_assoc]
    · have hstep : parseLine { in_yaml := true, raw_yaml := r, markdown := "" } line
          = { in_yaml := true, raw_yaml := r ++ line, markdown := "" } :=
        parseLine_open_keep r line hline
      rcases ih (r ++ line) with hopen | ⟨j, hj, htrim, hclose⟩
      · left
        rw [List.foldl_cons, hstep, hopen, joinAll_cons, str_append_assoc]
      · right
        refine ⟨j + 1, by simpa using hj, by simpa using htrim, ?_⟩
        rw [List.foldl_cons, hstep, hclose]
        simp [joinAll_cons, str_append_assoc]

/-! ## Claims C2, C9, C10: the front-matter splitter -/

/-- C2 counterexample: on a document whose first line is `---` and
which closes the block with a second `---`, the metadata buffer the
splitter returns is `"---\na: 1\n"` — it *includes* the first `---`
line (the line falls into the `raw_yaml` accumulator because the
closing test additionally requires a non-empty buffer), so it is not
"exactly the text between the two `---` occurrences". -/
theorem spec_C2_cex :
    (parseSplit ["---\n", "a: 1\n", "---\n", "body"]).1 = "---\na: 1\n" ∧
      ("---\na: 1\n" : String) ≠ "a: 1\n" := by
  constructor
  · rfl
  · decide

/-- C2 (amended): for a document whose first line trims to `---`,
followed by metadata lines none of which trims to `---`, then a
closing `---` line, the splitter returns the *first `---` line
together with* the text between the two `---` lines as the metadata
buffer, and everything after the closing line, trimmed, as the body. -/
theorem spec_C2_thm (l0 closer : String) (mid rest : List String)
    (h0 : pyStrip l0 = "---") (hmid : ∀ m ∈ mid, pyStrip m ≠ "---")
    (hclose : pyStrip closer = "---") :
    parseSplit (l0 :: (mid ++ closer :: rest)) = (l0 ++ joinAll mid, pyStrip (joinAll rest)) := by
  have hl0 : l0 ≠ "" := by
    intro h
    rw [h] at h0
    exact absurd h0 (by decide)
  have hstep1 : parseLine { in_yaml := true, raw_yaml := "", markdown := "" } l0
      = { in_yaml := true, raw_yaml := l0, markdown := "" } := by
    simp [parseLine, YAML_BOUNDARY, h0, str_nil_append]
  unfold parseSplit splitFrontMatter
  rw [List.foldl_cons, hstep1, List.foldl_append, foldl_yaml_acc mid l0 hmid, List.foldl_cons,
    parseLine_close _ closer hclose (str_append_ne_empty_left _ hl0), foldl_markdown]
  simp [str_nil_append]

/-- C2 witness: the amended statement evaluated on a concrete
document. -/
theorem spec_C2_witness :
    parseSplit ["---\n", "a: 1\n", "---\n", "body"] = ("---\na: 1\n", "body") :=
  spec_C2_thm "---\n" "---\n" ["a: 1\n"] ["body"] (by decide) (by decide) (by decide)

/-- C9: a document with no line trimming to `---` never closes the
metadata block: the whole input becomes the metadata buffer and the
body is empty (and the splitter, a total function, raises nothing). -/
theorem spec_C9 (lines : List String) (h : ∀ l ∈ lines, pyStrip l ≠ "---") :
    parseSplit lines = (joinAll lines, "") := by
  unfold parseSplit splitFrontMatter
  rw [foldl_yaml_acc lines "" h]
  simp [str_nil_append]
  decide

/-- C9 witness: concrete delimiter-free document. -/
theorem spec_C9_witness : parseSplit ["a: 1\n", "b: 2"] = ("a: 1\nb: 2", "") :=
  spec_C9 ["a: 1\n", "b: 2"] (by decide)

/-- C10: the splitter consumes at most one delimiter line.  Either no
qualifying `---` line exists and every line is in the metadata buffer,
or exactly one line `j` (trimming to `---`) is absent: the metadata
buffer is the concatenation of the lines before it, the (untrimmed)
body accumulator is the concatenation of the lines after it —
verbatim, so later `---` lines stay in the body — and the whole input
is recovered by re-inserting that single line. -/
theorem spec_C10 (lines : List String) :
    ((splitFrontMatter lines).in_yaml = true ∧
     (splitFrontMatter lines).raw_yaml = joinAll lines ∧
     (splitFrontMatter lines).markdown = "")
    ∨ ∃ j, ∃ hj : j < lines.length,
        pyStrip (lines.get ⟨j, hj⟩) = "---" ∧
        (splitFrontMatter lines).in_yaml = false ∧
        (splitFrontMatter lines).raw_yaml = joinAll (lines.take j) ∧
        (splitFrontMatter lines).markdown = joinAll (lines.drop (j + 1)) ∧
        joinAll lines
          = joinAll (lines.take j) ++ lines.get ⟨j, hj⟩ ++ joinAll (lines.drop (j + 1)) := by
  rcases split_progress lines "" with h | ⟨j, hj, htrim, h⟩
  · left
    unfold splitFrontMatter
    rw [h]
    exact ⟨rfl, str_nil_append _, rfl⟩
  · right
    refine ⟨j, hj, htrim, ?_⟩
    unfold splitFrontMatter
    rw [h]
    refine ⟨rfl, str_nil_append _, rfl, ?_⟩
    have hdrop : lines.get ⟨j, hj⟩ :: lines.drop (j + 1) = lines.drop j :=
      List.get_cons_drop lines ⟨j, hj⟩
    calc joinAll lines = joinAll (lines.take j ++ lines.drop j) := by
          rw [List.take_append_drop]
      _ = joinAll (lines.take j) ++ joinAll (lines.drop j) := joinAll_append _ _
      _ = joinAll (lines.take j) ++ (lines.get ⟨j, hj⟩ ++ joinAll (lines.drop (j + 1))) := by
          rw [← hdrop, joinAll_cons]
      _ = joinAll (lines.take j) ++ lines.get ⟨j, hj⟩ ++ joinAll (lines.drop (j + 1)) :=
          (str_append_assoc _ _ _).symm

/-! ## Behaviour of the image renderer -/

theorem strHasSub_here (x pat y : String) : strHasSub pat (x ++ pat ++ y) = true := by
  unfold strHasSub
  rw [String.data_append, String.data_append]
  exact hasSub_append_left _ _ _
    (hasSub_append_right _ _ _ (hasSub_of_pre (List.prefix_refl _)))

/-- What one `image` call does to the renderer state and what kind of
reference its tag carries, depending on the external/local
classification. -/
theorem image_state {r r' : ConfluenceRenderer} {src title alt tag : String}
    (h : image r src title alt = Except.ok (r', tag)) :
    (netloc src ≠ "" → r' = r ∧
        strHasSub ("<ri:url ri:value=\"" ++ src ++ "\" />") tag = true) ∧
    (netloc src = "" → r' = { r with attachments := r.attachments ++ [src] } ∧
        strHasSub ("<ri:attachment ri:filename=\"" ++ basename src ++ "\" />") tag = true) := by
  unfold image at h
  cases hx : extract_height_width alt with
  | error e => rw [hx] at h; cases h
  | ok hw =>
    obtain ⟨height, width⟩ := hw
    rw [hx] at h
    simp only at h
    by_cases hn : netloc src = ""
    · rw [if_neg (by simp [hn])] at h
      simp only [Except.ok.injEq, Prod.mk.injEq] at h
      constructor
      · intro hext; exact absurd hn hext
      · intro _
        refine ⟨h.1.symm, ?_⟩
        rw [← h.2]
        exact strHasSub_here _ _ _
    · rw [if_pos hn] at h
      simp only [Except.ok.injEq, Prod.mk.injEq] at h
      constructor
      · intro _
        refine ⟨h.1.symm, ?_⟩
        rw [← h.2]
        exact strHasSub_here _ _ _
      · intro heq; exact absurd heq hn

/-- Rendering an image only ever touches the attachment list, appending the
original `src` exactly when the image is classified local. -/
theorem image_attachments {r r' : ConfluenceRenderer} {src title alt tag : String}
    (h : image r src title alt = Except.ok (r', tag)) :
    r'.attachments = r.attachments ++ (if netloc src = "" then [src] else []) ∧
    r'.has_toc = r.has_toc ∧ r'.authors = r.authors ∧ r'.sidebar = r.sidebar := by
  by_cases hn : netloc src = ""
  · have := ((image_state h).2 hn).1
    rw [this, if_pos hn]
    exact ⟨rfl, rfl, rfl, rfl⟩
  · have := ((image_state h).1 hn).1
    rw [this, if_neg hn, List.append_nil]
    exact ⟨rfl, rfl, rfl, rfl⟩

/-- Attachment accumulation over a whole list of image constructs. -/
theorem renderDoc_imgs_attach (imgs : List (String × String × String)) :
    ∀ r₀ st html,
      renderDoc r₀ (imgs.map fun p => Construct.image p.1 p.2.1 p.2.2)
          = Except.ok (st, html) →
      st.attachments = r₀.attachments
        ++ (imgs.filter (fun p => netloc p.1 == "")).map (fun p => p.1) := by
  induction imgs with
  | nil =>
    intro r₀ st html h
    simp only [List.map_nil, renderDoc, Except.ok.injEq, Prod.mk.injEq] at h
    rw [← h.1, List.filter_nil, List.map_nil, List.append_nil]
  | cons p ps ih =>
    intro r₀ st html h
    rw [List.map_cons] at h
    cases himg : image r₀ p.1 p.2.1 p.2.2 with
    | error e =>
      simp only [renderDoc, renderConstruct, himg] at h
      exact Except.noConfusion h
    | ok pr =>
      obtain ⟨r1, frag⟩ := pr
      cases hrest : renderDoc r1 (ps.map fun p => Construct.image p.1 p.2.1 p.2.2) with
      | error e =>
        simp only [renderDoc, renderConstruct, himg, hrest] at h
        exact Except.noConfusion h
      | ok pr2 =>
        obtain ⟨r2, rest_html⟩ := pr2
        simp only [renderDoc, renderConstruct, himg, hrest, Except.ok.injEq,
          Prod.mk.injEq] at h
        rw [← h.1]
        rw [ih r1 r2 rest_html hrest, (image_attachments himg).1]
        by_cases hn : netloc p.1 = ""
        · simp [hn, List.filter_cons, List.append_assoc]
        · simp [hn, List.filter_cons]

/-- C1: over any sequence of image constructs rendered in one call,
the attachment list grows by exactly the `src` of each non-external
image, in order, with no deduplication; an external image (non-empty
`urlparse` netloc) contributes a URL-reference tag and leaves the
attachments unchanged, and a local one contributes an
attachment-reference tag carrying only the basename while the
*original* `src` is appended. -/
theorem spec_C1 (imgs : List (String × String × String))
    (r₀ st : ConfluenceRenderer) (html : String)
    (h : renderDoc r₀ (imgs.map fun p => Construct.image p.1 p.2.1 p.2.2)
        = Except.ok (st, html)) :
    st.attachments = r₀.attachments
        ++ (imgs.filter (fun p => netloc p.1 == "")).map (fun p => p.1) ∧
    (∀ r r' src title alt tag, image r src title alt = Except.ok (r', tag) →
      (netloc src ≠ "" → r'.attachments = r.attachments ∧
        strHasSub ("<ri:url ri:value=\"" ++ src ++ "\" />") tag = true) ∧
      (netloc src = "" → r'.attachments = r.attachments ++ [src] ∧
        strHasSub ("<ri:attachment ri:filename=\"" ++ basename src ++ "\" />") tag = true)) := by
  refine ⟨renderDoc_imgs_attach imgs r₀ st html h, ?_⟩
  intro r r' src title alt tag himg
  constructor
  · intro hext
    rcases (image_state himg).1 hext with ⟨hr, htag⟩
    exact ⟨by rw [hr], htag⟩
  · intro hloc
    rcases (image_state himg).2 hloc with ⟨hr, htag⟩
    exact ⟨by rw [hr], htag⟩

/-- C1 witness: one external and one local image rendered in order;
the attachment list picks up exactly the local `src`, and concrete
tags carry the expected references. -/
theorem spec_C1_witness :
    renderDoc (mkRenderer [] false)
        ([("http://example.com/a.png", "", "alt"), ("images/pic.png", "", "alt")].map
          fun p => Construct.image p.1 p.2.1 p.2.2)
      = Except.ok ((⟨["images/pic.png"], [], false, false⟩ : ConfluenceRenderer),
        "<ac:image><ri:url ri:value=\"http://example.com/a.png\" /></ac:image><ac:image><ri:attachment ri:filename=\"pic.png\" /></ac:image>") ∧
    (⟨["images/pic.png"], [], false, false⟩ : ConfluenceRenderer).attachments
      = (mkRenderer [] false).attachments
        ++ (([("http://example.com/a.png", "", "alt"), ("images/pic.png", "", "alt")].filter
              (fun p => netloc p.1 == "")).map (fun p => p.1)) := by
  constructor
  · rfl
  · exact (spec_C1 [("http://example.com/a.png", "", "alt"), ("images/pic.png", "", "alt")]
      (mkRenderer [] false) _ _ rfl).1

/-! ## Claim C3: the size-hint extraction -/

/-- C3: the claim says `extract_height_width` never raises and splits
on the *first* `x`.  In the code, `height, width = parts.split('x')`
splits on *every* `x` and sits before the `try`, so an alt text whose
trailing segment contains two or more `x` characters makes the
two-tuple unpacking raise `ValueError`, which propagates out of
`image`.  This theorem evaluates the embedding at such an input: the
helper errors, and so does the whole `image` call, aborting the
conversion.  (On segments with at most one `x` the helper is total,
per the `Except.ok` results in its other branches.) -/
theorem spec_C3 :
    extract_height_width "a|1x2x3" = Except.error "ValueError: too many values to unpack" ∧
    image (mkRenderer [] false) "pic.png" "" "a|1x2x3"
      = Except.error "ValueError: too many values to unpack" := by
  constructor
  · rfl
  · rfl

/-! ## Claim C4: malformed or absent metadata -/

/-- C4 counterexample: when the (black-box) YAML loader fails on the
metadata buffer — as PyYAML does on malformed input such as
`"a: [\n"` — `parse` has no exception handling around `yaml.load`, so
the whole conversion errors instead of degrading to empty metadata. -/
theorem spec_C4_cex :
    fullConvert (fun _ => Except.error "yaml.scanner.ScannerError")
        (fun _ => []) ["a: [\n"]
      = Except.error "yaml.scanner.ScannerError" := rfl

/-- C4 (amended): when the metadata is *absent* (the loader returns
`None`, as `yaml.load` does on an empty buffer), conversion does not
abort: the front matter degrades to the empty mapping, `author_keys`
defaults to the empty sequence and `sidebar` to false, and the
document body is still converted to output markup (provided the body
itself renders).  A *malformed* metadata block, by contrast, makes the
loader raise and the error propagates (see the counterexample). -/
theorem spec_C4_thm (yamlLoad : String → Except String (Option FrontMatter))
    (mdParse : String → List Construct) (lines : List String)
    (r' : ConfluenceRenderer) (html : String)
    (habs : yamlLoad (splitFrontMatter lines).raw_yaml = Except.ok none)
    (hrender : renderDoc (mkRenderer [] false)
        (mdParse (pyStrip (splitFrontMatter lines).markdown)) = Except.ok (r', html)) :
    fullConvert yamlLoad mdParse lines = Except.ok (layout r' html, r'.attachments) := by
  simp only [fullConvert, habs, convtoconf, Option.getD_none]
  rw [hrender]

/-- C4 witness: a concrete document whose loader reports absent
metadata converts successfully with the default (empty) author list
and sidebar off. -/
theorem spec_C4_witness :
    fullConvert (fun _ => Except.ok none) (fun _ => [Construct.other "<p>hi</p>"]) ["hello"]
      = Except.ok (layout (mkRenderer [] false) "<p>hi</p>",
          (mkRenderer [] false).attachments) :=
  spec_C4_thm (fun _ => Except.ok none) (fun _ => [Construct.other "<p>hi</p>"]) ["hello"]
    (mkRenderer [] false) "<p>hi</p>" rfl rfl

/-! ## Claims C7, C8: layout assembly and the Authors fragment -/

/-- C7: with `sidebar` true, `layout` produces the sidebar column
first — proportional `30%` width, containing the TOC fragment then the
Authors fragment — followed by the main column with fixed `800px`
width containing the body fragment unchanged; with `sidebar` false it
concatenates TOC fragment, body fragment, Authors fragment with no
column wrapping. -/
theorem spec_C7 (r : ConfluenceRenderer) (content : String) :
    (r.sidebar = true →
      layout r content
        = columnWrap "30%" ((if r.has_toc then tocFragment else "") ++ render_authors r)
          ++ columnWrap "800px" content) ∧
    (r.sidebar = false →
      layout r content
        = (if r.has_toc then tocFragment else "") ++ content ++ render_authors r) := by
  constructor <;> intro h <;> simp [layout, h]

/-- C7 witness: both assembly modes evaluated at a concrete state. -/
theorem spec_C7_witness :
    layout ⟨[], [], true, true⟩ "BODY"
      = columnWrap "30%" (tocFragment ++ render_authors ⟨[], [], true, true⟩)
        ++ columnWrap "800px" "BODY" ∧
    layout ⟨[], [], false, false⟩ "BODY"
      = "" ++ "BODY" ++ render_authors ⟨[], [], false, false⟩ := by
  constructor
  · have := (spec_C7 ⟨[], [], true, true⟩ "BODY").1 rfl
    simpa using this
  · have := (spec_C7 ⟨[], [], false, false⟩ "BODY").2 rfl
    simpa using this

/-- C8: the Authors fragment is the heading `Authors` followed, per
author key in the given order, by one profile-picture macro plus a
user link, with entries separated by `<br />`; for an empty author
list the heading is still emitted with empty content. -/
theorem spec_C8 (r : ConfluenceRenderer) :
    render_authors r
      = "<h1>Authors</h1><p>" ++ joinSep "<br />" (r.authors.map authorEntry) ++ "</p>" ∧
    (r.authors = [] → render_authors r = "<h1>Authors</h1><p></p>") ∧
    (∀ k1 k2, r.authors = [k1, k2] →
      render_authors r
        = "<h1>Authors</h1><p>" ++ (authorEntry k1 ++ "<br />" ++ authorEntry k2) ++ "</p>") := by
  refine ⟨rfl, ?_, ?_⟩
  · intro h
    simp only [render_authors, h, List.map_nil, joinSep]
    rw [str_append_nil]
    rfl
  · intro k1 k2 h
    simp only [render_authors, h, List.map_cons, List.map_nil, joinSep]

/-- C8 witness: two concrete author keys render in order, separated by
a line break; the empty list still yields the heading. -/
theorem spec_C8_witness :
    render_authors ⟨[], ["u1", "u2"], false, false⟩
      = "<h1>Authors</h1><p>" ++ (authorEntry "u1" ++ "<br />" ++ authorEntry "u2") ++ "</p>" ∧
    render_authors (mkRenderer [] false) = "<h1>Authors</h1><p></p>" := by
  constructor
  · exact (spec_C8 ⟨[], ["u1", "u2"], false, false⟩).2.2 "u1" "u2" rfl
  · exact (spec_C8 (mkRenderer [] false)).2.1 rfl

/-! ## Claim C5: the code-block CDATA wrapper -/

set_option maxRecDepth 8192 in
/-- C5 counterexample: `block_code` inserts the code verbatim, so a
code body containing `]]>` terminates the opaque-data wrapper early:
reading the CDATA section back from the emitted macro yields only the
text before the embedded `]]>`, not the full code — nothing is escaped
or avoided. -/
theorem spec_C5_cex :
    cdataBody (block_code "a]]>b" none) = some "a" ∧ ("a" : String) ≠ "a]]>b" := by
  constructor
  · rfl
  · decide

/-- C5 (amended): `block_code` emits the code macro with the
`language` parameter (`lang or ''`) and the code text inserted
*verbatim* — unescaped — between `<![CDATA[` and `]]>`.  Hence for any
code body that does not itself contain `]]>` (and any language tag not
containing the wrapper markers), the CDATA section of the emitted
macro reads back as exactly the code; an embedded `]]>` breaks the
wrapper (see the counterexample). -/
theorem spec_C5_thm (code : String) (lang : Option String)
    (hcode : strHasSub cdataClose code = false)
    (hlang : strHasSub cdataOpen (lang.getD "") = false) :
    cdataBody (block_code code lang) = some code := by
  have hs : block_code code lang
      = ("<ac:structured-macro ac:name=\"code\" ac:schema-version=\"1\">\n    <ac:parameter ac:name=\"language\">"
          ++ (lang.getD "" ++ "</ac:parameter>\n    <ac:plain-text-body>"))
        ++ (cdataOpen ++ (code ++ codeMacroSuf)) := by
    unfold block_code codeMacroPre
    rw [show ("</ac:parameter>\n    <ac:plain-text-body><![CDATA[" : String)
        = "</ac:parameter>\n    <ac:plain-text-body>" ++ cdataOpen from rfl]
    simp [str_append_assoc]
  -- the part of the output before the CDATA opener
  set A : String :=
    "<ac:structured-macro ac:name=\"code\" ac:schema-version=\"1\">\n    <ac:parameter ac:name=\"language\">"
      ++ (lang.getD "" ++ "</ac:parameter>\n    <ac:plain-text-body>") with hA
  have hdata : (block_code code lang).data
      = A.data ++ (cdataOpen.data ++ (code.data ++ codeMacroSuf.data)) := by
    rw [hs]
    simp [String.data_append]
  -- the opener does not occur inside `A`
  have hAfree : hasSub cdataOpen.data A.data = false := by
    rw [hA, String.data_append, String.data_append]
    apply hasSub_append_false (by decide)
    · apply hasSub_append_false hlang (by decide)
      intro p1 p2 hsplit h1 h2 hsuf hpre
      exact straddleR hsplit h1 h2 hpre
        (show ("</ac:parameter>\n    <ac:plain-text-body>" : String).data.head? = some '<'
          from rfl) (by decide)
    · intro p1 p2 hsplit h1 h2 hsuf hpre
      have hp1 : p1 <+: cdataOpen.data := by
        rw [hsplit]; exact List.prefix_append p1 p2
      exact straddleL hp1 h1 hsuf
        (show ("<ac:structured-macro ac:name=\"code\" ac:schema-version=\"1\">\n    <ac:parameter ac:name=\"language\">" : String).data.getLast? = some '>'
          from rfl) (by decide)
  -- no straddle into the opener either: the first occurrence of the
  -- opener in the output is exactly at the end of `A`
  have hstr1 : ∀ p1 p2, cdataOpen.data = p1 ++ p2 → p1 ≠ [] → p2 ≠ [] →
      p1 <:+ A.data → p2 <+: cdataOpen.data ++ (code.data ++ codeMacroSuf.data) → False := by
    intro p1 p2 hsplit h1 h2 hsuf hpre
    exact straddleR hsplit h1 h2 hpre
      (by rw [head?_append_left _ _ (by decide : cdataOpen.data ≠ [])]; rfl) (by decide)
  have hfind1 : findSub cdataOpen.data (block_code code lang).data
      = some A.data.length := by
    rw [hdata, findSub_shift A.data _ hAfree hstr1,
      findSub_of_pre (List.prefix_append cdataOpen.data _)]
    simp
  -- the closer is first found right at the end of the code
  have hsuf2 : codeMacroSuf = cdataClose ++ "</ac:plain-text-body>\n</ac:structured-macro>\n" := rfl
  have hstr2 : ∀ p1 p2, cdataClose.data = p1 ++ p2 → p1 ≠ [] → p2 ≠ [] →
      p1 <:+ code.data →
      p2 <+: cdataClose.data ++ ("</ac:plain-text-body>\n</ac:structured-macro>\n" : String).data →
      False := by
    intro p1 p2 hsplit h1 h2 hsuf hpre
    exact straddleRconc cdataClose.data p1 p2
      (cdataClose.data ++ ("</ac:plain-text-body>\n</ac:structured-macro>\n" : String).data) []
      hsplit h1 h2 (by simpa using hpre) (by decide)
      (by decide)
  have hfind2 : findSub cdataClose.data (code.data ++ codeMacroSuf.data)
      = some code.data.length := by
    rw [hsuf2, String.data_append, findSub_shift code.data _ hcode hstr2,
      findSub_of_pre (List.prefix_append cdataClose.data _)]
    simp
  -- assemble
  unfold cdataBody
  rw [hfind1]
  have hdrop : (block_code code lang).data.drop (A.data.length + cdataOpen.length)
      = code.data ++ codeMacroSuf.data := by
    rw [hdata, ← List.append_assoc,
      show A.data.length + cdataOpen.length = (A.data ++ cdataOpen.data).length by
        rw [List.length_append]; rfl]
    exact List.drop_left _ _
  simp only [hdrop, hfind2]
  rw [List.take_left]

/-- C5 witness: a concrete code block with a language tag reads back
intact from the CDATA wrapper. -/
theorem spec_C5_witness :
    cdataBody (block_code "print(1)" (some "python")) = some "print(1)" :=
  spec_C5_thm "print(1)" (some "python") (by decide) (by decide)

/-! ## Claim C6: the table-of-contents macro -/

theorem straddleR_mem {pat p1 p2 b : List Char} {ch : Char}
    (hsplit : pat = p1 ++ p2) (h1 : p1 ≠ []) (h2 : p2 ≠ [])
    (hpre : p2 <+: b) (hb : b.head? = some ch) (hch : ch ∉ pat) : False :=
  straddleR hsplit h1 h2 hpre hb (fun hmem => hch (List.mem_of_mem_drop hmem))

theorem straddleL_pre {pat p1 p2 a : List Char} {ch : Char}
    (hsplit : pat = p1 ++ p2) (h1 : p1 ≠ []) (hsuf : p1 <:+ a)
    (ha : a.getLast? = some ch) (hch : ch ∉ pat) : False :=
  straddleL (by rw [hsplit]; exact List.prefix_append p1 p2) h1 hsuf ha hch

/-- Dispatching one construct flips `has_toc` exactly on headers. -/
theorem renderConstruct_toc {r r' : ConfluenceRenderer} {c : Construct} {frag : String}
    (h : renderConstruct r c = Except.ok (r', frag)) :
    r'.has_toc = (r.has_toc || isHeaderB c) := by
  cases c with
  | header text level =>
    simp only [renderConstruct, header, Except.ok.injEq, Prod.mk.injEq] at h
    rw [← h.1]
    simp [isHeaderB]
  | block_code code lang =>
    simp only [renderConstruct, Except.ok.injEq, Prod.mk.injEq] at h
    rw [← h.1]
    simp [isHeaderB]
  | image src title alt_text =>
    have h' : image r src title alt_text = Except.ok (r', frag) := h
    rw [(image_attachments h').2.1]
    simp [isHeaderB]
  | other html =>
    simp only [renderConstruct, Except.ok.injEq, Prod.mk.injEq] at h
    rw [← h.1]
    simp [isHeaderB]

/-- Over a whole document, `has_toc` ends up true iff it started true
or some header construct was rendered. -/
theorem renderDoc_toc (doc : List Construct) :
    ∀ r r' html, renderDoc r doc = Except.ok (r', html) →
      r'.has_toc = (r.has_toc || doc.any isHeaderB) := by
  induction doc with
  | nil =>
    intro r r' html h
    simp only [renderDoc, Except.ok.injEq, Prod.mk.injEq] at h
    rw [← h.1]
    simp
  | cons c rest ih =>
    intro r r' html h
    cases hc : renderConstruct r c with
    | error e =>
      simp only [renderDoc, hc] at h
      exact Except.noConfusion h
    | ok pr =>
      obtain ⟨r1, frag⟩ := pr
      cases hrest : renderDoc r1 rest with
      | error e =>
        simp only [renderDoc, hc, hrest] at h
        exact Except.noConfusion h
      | ok pr2 =>
        obtain ⟨r2, rest_html⟩ := pr2
        simp only [renderDoc, hc, hrest, Except.ok.injEq, Prod.mk.injEq] at h
        rw [← h.1, ih r1 r2 rest_html hrest, renderConstruct_toc hc]
        simp [List.any_cons, Bool.or_assoc]

theorem authors_data_head (r : ConfluenceRenderer) :
    (render_authors r).data.head? = some '<' := by
  have h1 : ("<h1>Authors</h1><p>" : String).data ≠ [] := by decide
  have h2 : (("<h1>Authors</h1><p>" : String).data
      ++ (joinSep "<br />" (r.authors.map authorEntry)).data) ≠ [] := by
    intro hx
    rcases List.append_eq_nil.mp hx with ⟨hx1, -⟩
    exact h1 hx1
  show ((("<h1>Authors</h1><p>" ++ joinSep "<br />" (r.authors.map authorEntry)) ++ "</p>")).data.head?
      = some '<'
  rw [String.data_append, String.data_append, head?_append_left _ _ h2,
    head?_append_left _ _ h1]
  rfl

theorem columnWrap_data (w c : String) :
    (columnWrap w c).data
      = colOpen.data ++ (w.data ++ (colMid.data ++ (c.data ++ colClose.data))) := by
  unfold columnWrap
  simp [String.data_append, List.append_assoc]

theorem columnWrap_head (w c : String) :
    (columnWrap w c).data.head? = some '\n' := by
  rw [columnWrap_data, head?_append_left _ _ (by decide : colOpen.data ≠ [])]
  rfl

/-- A column wrapper contains the TOC marker only if its width or its
content does. -/
theorem columnWrap_no_toc (w c : String)
    (hw : hasSub tocNeedle.data w.data = false)
    (hc : hasSub tocNeedle.data c.data = false) :
    hasSub tocNeedle.data (columnWrap w c).data = false := by
  rw [columnWrap_data]
  apply hasSub_append_false (by decide) ?hb ?hstr
  case hstr =>
    intro p1 p2 hsplit h1 h2 hsuf hpre
    exact straddleL_pre hsplit h1 hsuf
      (show colOpen.data.getLast? = some '>' from rfl) (by decide)
  case hb =>
    apply hasSub_append_false hw ?hb2 ?hstr2
    case hstr2 =>
      intro p1 p2 hsplit h1 h2 hsuf hpre
      exact straddleR_mem hsplit h1 h2 hpre
        (by rw [head?_append_left _ _ (by decide : colMid.data ≠ [])]; rfl) (by decide)
    case hb2 =>
      apply hasSub_append_false (by decide) ?hb3 ?hstr3
      case hstr3 =>
        intro p1 p2 hsplit h1 h2 hsuf hpre
        exact straddleL_pre hsplit h1 hsuf
          (show colMid.data.getLast? = some '>' from rfl) (by decide)
      case hb3 =>
        apply hasSub_append_false hc (by decide) ?hstr4
        case hstr4 =>
          intro p1 p2 hsplit h1 h2 hsuf hpre
          exact straddleR_mem hsplit h1 h2 hpre
            (show colClose.data.head? = some '<' from rfl) (by decide)

/-- The TOC marker occurs in the layout output iff `has_toc` is set,
provided neither the rendered body nor the authors fragment smuggles
the marker text in. -/
theorem layout_toc_iff (r : ConfluenceRenderer) (content : String)
    (hc : hasSub tocNeedle.data content.data = false)
    (ha : hasSub tocNeedle.data (render_authors r).data = false) :
    (hasSub tocNeedle.data (layout r content).data = true ↔ r.has_toc = true) := by
  cases hst : r.has_toc with
  | false =>
    simp only [layout, hst, if_false, Bool.false_eq_true, iff_false]
    intro hx
    cases hsb : r.sidebar with
    | false =>
      rw [hsb] at hx
      simp only [if_false, Bool.false_eq_true, str_nil_append] at hx
      have habs : hasSub tocNeedle.data (content ++ render_authors r).data = false := by
        rw [String.data_append]
        apply hasSub_append_false hc ha ?hstr
        case hstr =>
          intro p1 p2 hsplit h1 h2 hsuf hpre
          exact straddleR_mem hsplit h1 h2 hpre (authors_data_head r) (by decide)
      rw [habs] at hx
      exact Bool.noConfusion hx
    | true =>
      rw [hsb] at hx
      simp only [if_true] at hx
      have hcol1 : hasSub tocNeedle.data (columnWrap "30%" ("" ++ render_authors r)).data
          = false := by
        apply columnWrap_no_toc _ _ (by decide)
        rw [str_nil_append]
        exact ha
      have hcol2 : hasSub tocNeedle.data (columnWrap "800px" content).data = false :=
        columnWrap_no_toc _ _ (by decide) hc
      have habs : hasSub tocNeedle.data
          ((columnWrap "30%" ("" ++ render_authors r)
            ++ columnWrap "800px" content)).data = false := by
        rw [String.data_append]
        apply hasSub_append_false hcol1 hcol2 ?hstr
        case hstr =>
          intro p1 p2 hsplit h1 h2 hsuf hpre
          exact straddleR_mem hsplit h1 h2 hpre (columnWrap_head _ _) (by decide)
      rw [habs] at hx
      exact Bool.noConfusion hx
  | true =>
    simp only [layout, hst, if_true, iff_true]
    cases hsb : r.sidebar with
    | false =>
      simp only [hsb, if_false, Bool.false_eq_true]
      rw [String.data_append, String.data_append]
      exact hasSub_append_left _ _ _ (hasSub_append_left _ _ _
        (by decide : hasSub tocNeedle.data tocFragment.data = true))
    | true =>
      simp only [hsb, if_true]
      rw [String.data_append, columnWrap_data, String.data_append]
      apply hasSub_append_left
      apply hasSub_append_right
      apply hasSub_append_right
      apply hasSub_append_right
      apply hasSub_append_left
      apply hasSub_append_left
      exact (by decide : hasSub tocNeedle.data tocFragment.data = true)

/-- C6: `has_toc` ends a conversion true iff at least one header
construct was rendered, and — as long as neither the rendered body
fragment nor the authors fragment contains the TOC-macro marker text
itself — the table-of-contents structured macro appears in the final
page markup iff `has_toc` is true. -/
theorem spec_C6 (authors : List String) (sidebar : Bool) (doc : List Construct)
    (r' : ConfluenceRenderer) (html : String)
    (h : renderDoc (mkRenderer authors sidebar) doc = Except.ok (r', html))
    (hc : strHasSub tocNeedle html = false)
    (ha : strHasSub tocNeedle (render_authors r') = false) :
    (r'.has_toc = true ↔ doc.any isHeaderB = true) ∧
    (strHasSub tocNeedle (layout r' html) = true ↔ r'.has_toc = true) := by
  constructor
  · rw [renderDoc_toc doc _ _ _ h]
    simp [mkRenderer]
  · exact layout_toc_iff r' html hc ha

/-- C6 witness: a single-header document sets `has_toc` and the TOC
macro text appears in the laid-out page. -/
theorem spec_C6_witness :
    strHasSub tocNeedle (layout ⟨[], [], true, false⟩ "<h1>T</h1>\n") = true ∧
    ((⟨[], [], true, false⟩ : ConfluenceRenderer).has_toc = true
      ↔ [Construct.header "T" 1].any isHeaderB = true) := by
  have hmain := spec_C6 [] false [Construct.header "T" 1]
    ⟨[], [], true, false⟩ "<h1>T</h1>\n" rfl (by decide) (by decide)
  exact ⟨hmain.2.mpr rfl, hmain.1⟩

end MdToConf
